import Mathlib

/-!
Verification of the SkogAI/skills command-line toolkit.

The repository consists of six small Python scripts that create and validate
two kinds of Markdown artifacts ("agents" and "slash commands").  This file
gives a shallow embedding of the core logic of those scripts — directory
resolution for the `user`/`project` scopes, frontmatter extraction, the
structural validation checks, and template filling — as executable Lean
functions over `List Char` (text) and `List String` (filesystem paths), and
proves the behavioural properties claimed of them.

Text is modelled as `List Char`, restricted to the ASCII fragment of
Python's character classes (`str.islower`, `str.isdigit`, `\s`, `\w`),
which is the alphabet the repository's data actually uses.
-/

namespace SkogaiSkills

/-! ## Character classes (ASCII fragment of the Python predicates) -/

/-- Python whitespace characters (the ASCII part of `\s` and `str.strip`). -/
def isWs (c : Char) : Bool :=
  c == ' ' || c == '\t' || c == '\n' || c == '\r' || c == '\x0b' || c == '\x0c'

/-- ASCII decimal digit, the ASCII fragment of `str.isdigit` / regex `\d`. -/
def isDigitCh (c : Char) : Bool := '0' ≤ c && c ≤ '9'

/-- ASCII lowercase letter, the ASCII fragment of `str.islower`. -/
def isLowerCh (c : Char) : Bool := 'a' ≤ c && c ≤ 'z'

/-- ASCII uppercase letter. -/
def isUpperCh (c : Char) : Bool := 'A' ≤ c && c ≤ 'Z'

/-- ASCII fragment of `str.lower` applied to one character. -/
def pyLowerCh (c : Char) : Char :=
  if isUpperCh c then Char.ofNat (c.toNat + 32) else c

/-- ASCII fragment of the regex class `\w`. -/
def isWordCh (c : Char) : Bool :=
  isLowerCh c || isUpperCh c || isDigitCh c || c == '_'

/-- Python `str.lower` over a text. -/
def lowerStr (s : List Char) : List Char := s.map pyLowerCh

/-! ## Generic text utilities -/

/-- Python's substring test `pat in s`. -/
def hasSub (pat : List Char) : List Char → Bool
  | [] => pat.isEmpty
  | s@(_ :: rest) => pat.isPrefixOf s || hasSub pat rest

/-- Python's `str.count pat`: non-overlapping occurrences, scanned from the
left, with a fuel argument for structural recursion.  Every recursive call
consumes at least one character, so fuel equal to the text length never runs
out.  (For an empty `pat` Python returns `len+1`; all patterns counted in
this development are non-empty, and the guard keeps the function total.) -/
def countSubF (pat : List Char) : Nat → List Char → Nat
  | 0, _ => 0
  | _, [] => 0
  | fuel + 1, c :: rest =>
    if !pat.isEmpty && pat.isPrefixOf (c :: rest) then
      1 + countSubF pat fuel ((c :: rest).drop pat.length)
    else
      countSubF pat fuel rest

/-- Python's `str.count pat` over a text. -/
def countSub (pat : List Char) (s : List Char) : Nat := countSubF pat s.length s

/-- Remainder of the text after the first occurrence of `pat`, if any. -/
def findAfterSub (pat : List Char) : List Char → Option (List Char)
  | [] => if pat.isEmpty then some [] else none
  | s@(_ :: rest) =>
    if pat.isPrefixOf s then some (s.drop pat.length) else findAfterSub pat rest

/-- Python `str.split (on a newline)`: `""` yields `[""]`, a trailing newline
yields a trailing empty line. -/
def splitLines : List Char → List (List Char)
  | [] => [[]]
  | '\n' :: rest => [] :: splitLines rest
  | c :: rest =>
    match splitLines rest with
    | l :: ls => (c :: l) :: ls
    | [] => [[c]]

/-- Pair each element with a counter starting at `n`, as Python
`enumerate (lines, n)` does. -/
def numberFrom (n : Nat) : List (List Char) → List (Nat × List Char)
  | [] => []
  | l :: ls => (n, l) :: numberFrom (n + 1) ls

/-- Python `str.strip ()`: remove whitespace from both ends. -/
def pyStrip (l : List Char) : List Char :=
  ((l.dropWhile isWs).reverse.dropWhile isWs).reverse

/-! ## Directory resolution (DirectoryResolver)

Paths are modelled as `List String`, deepest segment first, so the
filesystem root is `[]` and `Path.parent` is `List.tail`.  The filesystem is
abstracted by a predicate `hasClaude : List String → Bool` telling whether a
directory contains the `.claude` marker subdirectory. -/

/-- Outcome of a failed scope resolution. -/
inductive ResolveErr where
  | noProjectRoot
  | invalidScope
deriving DecidableEq

/-- The upward-search loop of `activate_agent.py` lines 33–38:
`while current != current.parent`, testing `(current / ".claude").exists()`
and moving to the parent; the root directory (where `current == current.parent`)
is never tested. -/
def activate_walk (hasClaude : List String → Bool) : List String → Option (List String)
  | [] => none
  | d :: rest =>
    if hasClaude (d :: rest) then some (d :: rest) else activate_walk hasClaude rest

/-- Target-directory resolution of `activate_agent.py` lines 28–44.
`user` scope resolves under the home directory; `project` scope walks upward
from `cwd`; any other scope is rejected. -/
def activate_targetDir (hasClaude : List String → Bool) (home cwd : List String)
    (scope : String) : Except ResolveErr (List String) :=
  if scope = "user" then .ok ("agents" :: ".claude" :: home)
  else if scope = "project" then
    match activate_walk hasClaude cwd with
    | some root => .ok ("agents" :: ".claude" :: root)
    | none => .error ResolveErr.noProjectRoot
  else .error ResolveErr.invalidScope

/-- The identical upward-search loop of `create_skogix_agent.py` lines 135–140. -/
def createAgent_walk (hasClaude : List String → Bool) : List String → Option (List String)
  | [] => none
  | d :: rest =>
    if hasClaude (d :: rest) then some (d :: rest) else createAgent_walk hasClaude rest

/-- Target-directory resolution of `create_skogix_agent.py` lines 131–146. -/
def createAgent_targetDir (hasClaude : List String → Bool) (home cwd : List String)
    (scope : String) : Except ResolveErr (List String) :=
  if scope = "user" then .ok ("agents" :: ".claude" :: home)
  else if scope = "project" then
    match createAgent_walk hasClaude cwd with
    | some root => .ok ("agents" :: ".claude" :: root)
    | none => .error ResolveErr.noProjectRoot
  else .error ResolveErr.invalidScope

/-- Commands-directory resolution of `create_command.py` lines 400–407:
`user` scope resolves under home, and `project` scope resolves directly to
`Path.cwd () / ".claude" / "commands"` — no upward search is performed and
no missing-marker failure exists. -/
def createCommand_commandsDir (home cwd : List String) (scope : String) :
    Except ResolveErr (List String) :=
  if scope = "user" then .ok ("commands" :: ".claude" :: home)
  else if scope = "project" then .ok ("commands" :: ".claude" :: cwd)
  else .error ResolveErr.invalidScope

/-! ### Lemmas about the upward search -/

theorem activate_walk_eq_createAgent_walk (hc : List String → Bool) :
    ∀ cwd, activate_walk hc cwd = createAgent_walk hc cwd := by
  intro cwd
  induction cwd with
  | nil => rfl
  | cons d rest ih => simp [activate_walk, createAgent_walk, ih]

theorem activate_walk_eq_none_iff (hc : List String → Bool) (cwd : List String) :
    activate_walk hc cwd = none ↔ ∀ s, s ≠ [] → s <:+ cwd → hc s = false := by
  induction cwd with
  | nil =>
    constructor
    · intro _ s hs hsuf
      exact absurd (List.suffix_nil.mp hsuf) hs
    · intro _
      rfl
  | cons d rest ih =>
    by_cases h : hc (d :: rest) = true
    · simp only [activate_walk, h, if_true]
      constructor
      · intro hx
        exact absurd hx (by simp)
      · intro hall
        have := hall (d :: rest) (by simp) (List.suffix_refl _)
        rw [h] at this
        exact absurd this (by simp)
    · rw [Bool.not_eq_true] at h
      simp only [activate_walk, h, Bool.false_eq_true, if_false]
      rw [ih]
      constructor
      · intro hall s hs hsuf
        rcases List.suffix_cons_iff.mp hsuf with rfl | hsuf'
        · exact h
        · exact hall s hs hsuf'
      · intro hall s hs hsuf
        exact hall s hs (List.suffix_cons_iff.mpr (Or.inr hsuf))

theorem activate_walk_some (hc : List String → Bool) (cwd r : List String)
    (h : activate_walk hc cwd = some r) :
    r ≠ [] ∧ r <:+ cwd ∧ hc r = true ∧
      ∀ s, s ≠ r → r <:+ s → s <:+ cwd → hc s = false := by
  induction cwd with
  | nil => simp [activate_walk] at h
  | cons d rest ih =>
    by_cases hd : hc (d :: rest) = true
    · simp only [activate_walk, hd, if_true, Option.some.injEq] at h
      subst h
      refine ⟨by simp, List.suffix_refl _, hd, ?_⟩
      intro s hs hrs hsc
      have h1 := List.IsSuffix.length_le hrs
      have h2 := List.IsSuffix.length_le hsc
      exact absurd (List.IsSuffix.eq_of_length hsc (by omega)) hs
    · rw [Bool.not_eq_true] at hd
      simp only [activate_walk, hd, Bool.false_eq_true, if_false] at h
      obtain ⟨h1, h2, h3, h4⟩ := ih h
      refine ⟨h1, h2.trans (List.suffix_cons d rest), h3, ?_⟩
      intro s hs hrs hsc
      rcases List.suffix_cons_iff.mp hsc with rfl | hsc'
      · exact hd
      · exact h4 s hs hrs hsc'

theorem activate_targetDir_project (hc : List String → Bool) (home cwd : List String) :
    activate_targetDir hc home cwd "project" =
      match activate_walk hc cwd with
      | some root => .ok ("agents" :: ".claude" :: root)
      | none => .error ResolveErr.noProjectRoot := by
  unfold activate_targetDir
  rw [if_neg (by decide), if_pos rfl]

theorem createAgent_targetDir_project (hc : List String → Bool) (home cwd : List String) :
    createAgent_targetDir hc home cwd "project" =
      match createAgent_walk hc cwd with
      | some root => .ok ("agents" :: ".claude" :: root)
      | none => .error ResolveErr.noProjectRoot := by
  unfold createAgent_targetDir
  rw [if_neg (by decide), if_pos rfl]

/-- C1 (counterexample): with no `.claude` marker anywhere in the filesystem
and the working directory `/a`, `create_command.py`'s project-scope resolution
succeeds (returning `cwd/.claude/commands`) while the walking resolvers of
`activate_agent.py` and `create_skogix_agent.py` fail with `NoProjectRoot`;
so the upward-walk-with-failure behaviour does not hold for all three entry
points. -/
theorem C1_counterexample :
    createCommand_commandsDir [] ["a"] "project" = .ok ["commands", ".claude", "a"]
    ∧ activate_targetDir (fun _ => false) [] ["a"] "project" =
        .error ResolveErr.noProjectRoot
    ∧ createAgent_targetDir (fun _ => false) [] ["a"] "project" =
        .error ResolveErr.noProjectRoot := by
  refine ⟨rfl, rfl, rfl⟩

/-- C1 (amended): for project scope, `activate_agent.py` and
`create_skogix_agent.py` resolve identically, by walking upward from the
working directory: they fail with `NoProjectRoot` exactly when no non-root
ancestor-or-self of the working directory contains the `.claude` marker, and
on success they return the `agents` subdirectory of the deepest marked
ancestor-or-self (no directory strictly between it and the working directory
is marked).  `create_command.py`, in contrast, resolves project scope
directly to `cwd/.claude/commands`, never searching upward and never
failing. -/
theorem C1_amended (hasClaude : List String → Bool) (home cwd : List String) :
    activate_targetDir hasClaude home cwd "project" =
      createAgent_targetDir hasClaude home cwd "project"
    ∧ createCommand_commandsDir home cwd "project" = .ok ("commands" :: ".claude" :: cwd)
    ∧ (activate_targetDir hasClaude home cwd "project" = .error ResolveErr.noProjectRoot ↔
        ∀ s, s ≠ [] → s <:+ cwd → hasClaude s = false)
    ∧ ∀ r, activate_walk hasClaude cwd = some r →
        activate_targetDir hasClaude home cwd "project" = .ok ("agents" :: ".claude" :: r)
        ∧ r ≠ [] ∧ r <:+ cwd ∧ hasClaude r = true
        ∧ ∀ s, s ≠ r → r <:+ s → s <:+ cwd → hasClaude s = false := by
  refine ⟨?_, ?_, ?_, ?_⟩
  · rw [activate_targetDir_project, createAgent_targetDir_project,
      activate_walk_eq_createAgent_walk]
  · unfold createCommand_commandsDir
    rw [if_neg (by decide), if_pos rfl]
  · rw [activate_targetDir_project, ← activate_walk_eq_none_iff]
    cases activate_walk hasClaude cwd <;> simp
  · intro r hr
    rw [activate_targetDir_project, hr]
    exact ⟨rfl, activate_walk_some _ _ _ hr⟩

/-- C1 (witness): a concrete run of the amended theorem, with the marker in
`/r` and working directory `/r/a`. -/
theorem C1_witness :
    activate_targetDir (fun p => decide (p = ["r"])) [] ["a", "r"] "project" =
      .ok ["agents", ".claude", "r"]
    ∧ (fun p => decide (p = (["r"] : List String))) ["r"] = true := by
  refine ⟨((C1_amended (fun p => decide (p = ["r"])) [] ["a", "r"]).2.2.2 ["r"]
    (by decide)).1, by decide⟩

/-- C10: the upward-search loop stops when a directory equals its own parent,
without testing that directory; hence whenever the marker exists only at the
filesystem root (in particular, also when the working directory is the root
itself), project-scope resolution in `activate_agent.py` and
`create_skogix_agent.py` reports the no-project-root failure rather than
finding the marker. -/
theorem C10_thm (hasClaude : List String → Bool) (home cwd : List String)
    (honly : ∀ p, hasClaude p = true → p = []) :
    activate_targetDir hasClaude home cwd "project" = .error ResolveErr.noProjectRoot
    ∧ createAgent_targetDir hasClaude home cwd "project" =
        .error ResolveErr.noProjectRoot := by
  have hnone : activate_walk hasClaude cwd = none := by
    rw [activate_walk_eq_none_iff]
    intro s hs _
    by_contra hx
    rw [Bool.not_eq_false] at hx
    exact hs (honly s hx)
  constructor
  · rw [activate_targetDir_project, hnone]
  · rw [createAgent_targetDir_project, ← activate_walk_eq_createAgent_walk, hnone]

/-- C10 (witness): with the marker present exactly at the root, both a
non-root working directory `/a` and the root itself resolve to the
no-project-root failure. -/
theorem C10_witness :
    activate_targetDir (fun p => List.isEmpty p) [] ["a"] "project" =
      .error ResolveErr.noProjectRoot
    ∧ activate_targetDir (fun p => List.isEmpty p) [] [] "project" =
      .error ResolveErr.noProjectRoot := by
  have honly : ∀ p : List String, List.isEmpty p = true → p = [] := by
    intro p hp
    cases p with
    | nil => rfl
    | cons a t => simp [List.isEmpty] at hp
  exact ⟨(C10_thm _ [] ["a"] honly).1, (C10_thm _ [] [] honly).1⟩

/-! ## Agent validation (validate_skogix_agent.py and validate_agent.py) -/

/-- A scalar YAML value as far as the validator inspects it: either a Python
string or some other value (`isinstance (x, str)` is the only type test the
code performs). -/
inductive PyVal where
  | str (s : List Char)
  | other
deriving DecidableEq

/-- Findings emitted by the agent validators. -/
inductive AgentMsg where
  | missingFrontmatter
  | invalidYaml
  | missingName
  | nameNotString
  | missingDescription
  | descriptionNotString
  | missingColor
  | badColor (v : PyVal)
  | missingIdentity
  | missingPrinciples
  | missingHardToVary
  | missingPopper
  | missingKiss
  | missingWorkflow
  | missingInput
  | missingOutput
  | missingQuality
  | missingUncertainty
deriving DecidableEq

/-- Result of one agent-validator run. -/
structure AgentOutcome where
  errors : List AgentMsg
  warnings : List AgentMsg
  ok : Bool
deriving DecidableEq

/-- Dictionary lookup in the parsed frontmatter mapping. -/
def lookupPy (key : List Char) : List (List Char × PyVal) → Option PyVal
  | [] => none
  | (k, v) :: rest => if k = key then some v else lookupPy key rest

/-- Splitter for the first occurrence of `"\n---\n"`, implementing the
non-greedy group of the strict frontmatter regex
`^---\n(.*?)\n---\n(.*)$` (DOTALL): the header is everything before the
first such separator, the body everything after it. -/
def splitClose : List Char → Option (List Char × List Char)
  | '\n' :: '-' :: '-' :: '-' :: '\n' :: rest => some ([], rest)
  | c :: rest => (splitClose rest).map fun p => (c :: p.1, p.2)
  | [] => none

/-- Frontmatter extraction of `validate_skogix_agent.py` line 40:
`re.match (r'^---\n(.*?)\n---\n(.*)$', content, re.DOTALL)`, returning the
header text and the body on success. -/
def parseSkogixFrontmatter (content : List Char) : Option (List Char × List Char) :=
  match content with
  | '-' :: '-' :: '-' :: '\n' :: rest => splitClose rest
  | _ => none

/-- Matcher for `ws* '\n'` as a prefix (`\s*\n` with a whitespace run that
must reach a newline). -/
def closeTail : List Char → Bool
  | [] => false
  | c :: rest => if c = '\n' then true else if isWs c then closeTail rest else false

/-- Does the text start with `---` followed by `\s*\n` (a closing delimiter
line of the lenient frontmatter regex)? -/
def startsClose : List Char → Bool
  | '-' :: '-' :: '-' :: rest => closeTail rest
  | _ => false

/-- Does the text contain, at any position, an occurrence of
`'\n' "---" ws* '\n'` — the closing delimiter of the lenient regex? -/
def hasCloseFrom : List Char → Bool
  | [] => false
  | c :: rest => (c == '\n' && startsClose rest) || hasCloseFrom rest

/-- After the literal `---`, the lenient pattern `\s*\n` succeeds iff the
maximal whitespace run contains a newline; the earliest such newline leaves
the largest remainder in which to find the closing delimiter, so matching
from it decides overall match existence. -/
def lenientOpen : List Char → Bool
  | [] => false
  | c :: rest =>
    if c = '\n' then hasCloseFrom rest
    else if isWs c then lenientOpen rest
    else false

/-- Match-existence of the lenient frontmatter regex of `validate_agent.py`
line 25: `re.match (r'^---\s*\n(.*?)\n---\s*\n', content, re.DOTALL)`. -/
def lenientMatch : List Char → Bool
  | '-' :: '-' :: '-' :: rest => lenientOpen rest
  | _ => false

/-- The early-return gate of `validate_agent.py` lines 24–31: the lenient
validator fails immediately with a missing-frontmatter error when the
lenient regex does not match. -/
def legacyValidateGate (content : List Char) : Except AgentMsg Unit :=
  if lenientMatch content then .ok () else .error AgentMsg.missingFrontmatter

/-- Does the text begin with a line of three hyphens (the first line is
`---` possibly followed by trailing whitespace)?  This is the formalisation
of "begins with a line of three hyphens delimiting a header block": both
validators' regexes accept at most such first lines (the strict one demands
exactly `---`). -/
def startsWithDashLine (s : List Char) : Bool :=
  match s with
  | '-' :: '-' :: '-' :: rest => (rest.takeWhile (fun c => c != '\n')).all isWs
  | _ => false

/-! ### The Skogix body checks -/

/-- Literal opening of the identity-statement regex. -/
def idTok : List Char := "You are the **".toList

/-- Character class `[\w\s-]` of the identity-statement regex. -/
def isIdBodyChar (c : Char) : Bool := isWordCh c || isWs c || c == '-'

/-- After the literal `You are the **`, the regex `[\w\s-]+\*\*` matches iff
the maximal run of `[\w\s-]` characters is non-empty and is followed by
`**` (a `*` is not in the class, so no backtracking case arises). -/
def idAfter (s : List Char) : Bool :=
  !(s.takeWhile isIdBodyChar).isEmpty &&
    (match s.dropWhile isIdBodyChar with
     | '*' :: '*' :: _ => true
     | _ => false)

/-- Search for the identity statement
`re.search (r'You are the \*\*[\w\s-]+\*\*', body)`. -/
def hasIdentity : List Char → Bool
  | [] => false
  | c :: rest =>
    (idTok.isPrefixOf (c :: rest) && idAfter ((c :: rest).drop idTok.length))
      || hasIdentity rest

/-- Recommended colors of `validate_skogix_agent.py` line 67. -/
def validColors : List (List Char) :=
  ["blue".toList, "cyan".toList, "green".toList, "yellow".toList,
   "orange".toList, "red".toList]

/-- Name/description requirement check (`validate_skogix_agent.py`
lines 54–62) for one required field. -/
def requiredFieldErrs (key : List Char) (missing notStr : AgentMsg)
    (fm : List (List Char × PyVal)) : List AgentMsg :=
  match lookupPy key fm with
  | none => [missing]
  | some (.str _) => []
  | some _ => [notStr]

/-- Color recommendation check (`validate_skogix_agent.py` lines 64–69). -/
def colorWarns (fm : List (List Char × PyVal)) : List AgentMsg :=
  match lookupPy ("color".toList) fm with
  | none => [AgentMsg.missingColor]
  | some v =>
    if (match v with | .str s => validColors.contains s | _ => false) then []
    else [AgentMsg.badColor v]

/-- The field and body checks of `validate_skogix_agent.py` lines 53–140,
applied to an already parsed frontmatter mapping and the body text.  The
run passes (`ok`) iff no errors were recorded; warnings never fail it. -/
def skogixChecks (fm : List (List Char × PyVal)) (body : List Char) : AgentOutcome :=
  let low := lowerStr body
  let errors :=
    requiredFieldErrs ("name".toList) AgentMsg.missingName AgentMsg.nameNotString fm
      ++ requiredFieldErrs ("description".toList) AgentMsg.missingDescription
          AgentMsg.descriptionNotString fm
  let warnings :=
    colorWarns fm
      ++ (if hasIdentity body then [] else [AgentMsg.missingIdentity])
      ++ (if !hasSub ("Principles".toList) body && !hasSub ("principles".toList) low
          then [AgentMsg.missingPrinciples] else [])
      ++ (if hasSub ("hard-to-vary".toList) low then [] else [AgentMsg.missingHardToVary])
      ++ (if !hasSub ("popper".toList) low && !hasSub ("falsif".toList) low
          then [AgentMsg.missingPopper] else [])
      ++ (if hasSub ("kiss".toList) low then [] else [AgentMsg.missingKiss])
      ++ (if hasSub ("Workflow".toList) body || hasSub ("workflow".toList) body
            || hasSub ("Method".toList) body || hasSub ("method".toList) body
            || hasSub ("Steps".toList) body || hasSub ("steps".toList) body
          then [] else [AgentMsg.missingWorkflow])
      ++ (if !hasSub ("**Input".toList) body && !hasSub ("Input:".toList) body
          then [AgentMsg.missingInput] else [])
      ++ (if !hasSub ("**Output".toList) body && !hasSub ("Output:".toList) body
            && !hasSub ("Deliverable".toList) body
          then [AgentMsg.missingOutput] else [])
      ++ (if hasSub ("Quality".toList) body || hasSub ("quality".toList) body
            || hasSub ("Checklist".toList) body || hasSub ("checklist".toList) body
            || hasSub ("Guidelines".toList) body || hasSub ("guidelines".toList) body
          then [] else [AgentMsg.missingQuality])
      ++ (if !hasSub ("If".toList) body || !hasSub ("rather than".toList) body
          then [AgentMsg.missingUncertainty] else [])
  ⟨errors, warnings, errors.isEmpty⟩

/-- The whole of `validate_skogix_agent.py`'s `validate_agent`, parameterised
by the external YAML parser (`yaml.safe_load`), which is modelled as an
oracle returning the parsed scalar mapping or failing. -/
def skogixValidate (yamlParse : List Char → Option (List (List Char × PyVal)))
    (content : List Char) : AgentOutcome :=
  match parseSkogixFrontmatter content with
  | none => ⟨[AgentMsg.missingFrontmatter], [], false⟩
  | some (fmStr, body) =>
    match yamlParse fmStr with
    | none => ⟨[AgentMsg.invalidYaml], [], false⟩
    | some fm => skogixChecks fm body

/-- The eight warning categories named by the specification for a minimal
valid agent document. -/
inductive WarnCat where
  | color
  | identity
  | principles
  | workflow
  | inputMarker
  | outputMarker
  | quality
  | uncertainty
deriving DecidableEq

/-- Category of each warning message (the four principles-related warnings
share the principles-keywords category). -/
def warnCategory : AgentMsg → Option WarnCat
  | .missingColor => some .color
  | .badColor _ => some .color
  | .missingIdentity => some .identity
  | .missingPrinciples => some .principles
  | .missingHardToVary => some .principles
  | .missingPopper => some .principles
  | .missingKiss => some .principles
  | .missingWorkflow => some .workflow
  | .missingInput => some .inputMarker
  | .missingOutput => some .outputMarker
  | .missingQuality => some .quality
  | .missingUncertainty => some .uncertainty
  | _ => none

/-! ### Frontmatter-gate lemmas -/

theorem parseSkogix_none_of_not_dashline (s : List Char)
    (h : startsWithDashLine s = false) : parseSkogixFrontmatter s = none := by
  unfold parseSkogixFrontmatter
  split
  · rename_i rest
    simp [startsWithDashLine, List.takeWhile] at h
  · rfl

theorem lenientOpen_ws :
    ∀ a, lenientOpen a = true → (a.takeWhile (fun c => c != '\n')).all isWs = true := by
  intro a
  induction a with
  | nil => intro h; simp [lenientOpen] at h
  | cons c rest ih =>
    intro h
    by_cases hc : c = '\n'
    · subst hc
      simp [List.takeWhile]
    · rw [lenientOpen, if_neg hc] at h
      by_cases hw : isWs c = true
      · rw [if_pos hw] at h
        have hr := ih h
        have hne : (c != '\n') = true := by
          simp [bne]
          exact hc
        simp [List.takeWhile, hne, List.all_cons, hw, hr]
      · rw [if_neg hw] at h
        exact absurd h (by simp)

theorem lenientMatch_false_of_not_dashline (s : List Char)
    (h : startsWithDashLine s = false) : lenientMatch s = false := by
  unfold lenientMatch
  split
  · rename_i rest
    simp only [startsWithDashLine] at h
    by_contra hx
    rw [Bool.not_eq_false] at hx
    rw [lenientOpen_ws rest hx] at h
    exact absurd h (by simp)
  · rfl

/-- C2: any text that does not begin with a line of three hyphens (first
line `---` up to trailing whitespace) makes both agent validators fail
immediately with the missing-frontmatter error: the strict validator of
`validate_skogix_agent.py` returns failure with exactly that one error and
no field findings (for every possible YAML parser), and the lenient
validator of `validate_agent.py` takes its missing-frontmatter early
return. -/
theorem C2_thm (yamlParse : List Char → Option (List (List Char × PyVal)))
    (content : List Char) (h : startsWithDashLine content = false) :
    skogixValidate yamlParse content = ⟨[AgentMsg.missingFrontmatter], [], false⟩
    ∧ legacyValidateGate content = .error AgentMsg.missingFrontmatter := by
  constructor
  · unfold skogixValidate
    rw [parseSkogix_none_of_not_dashline content h]
  · unfold legacyValidateGate
    rw [lenientMatch_false_of_not_dashline content h]
    rfl

/-- C2 (witness): the text `hello` has no leading `---` line and both
validators reject it with the missing-frontmatter error. -/
theorem C2_witness :
    startsWithDashLine ("hello".toList) = false
    ∧ skogixValidate (fun _ => none) ("hello".toList) =
        ⟨[AgentMsg.missingFrontmatter], [], false⟩
    ∧ legacyValidateGate ("hello".toList) = .error AgentMsg.missingFrontmatter :=
  ⟨by decide, C2_thm (fun _ => none) ("hello".toList) (by decide)⟩

/-- C3: an agent frontmatter mapping missing both `name` and `description`
yields exactly the two corresponding errors and fails validation; a mapping
holding exactly `name` and `description` as strings, with an empty body,
yields zero errors (passing) and exactly the eleven warnings whose
categories are precisely the eight named ones: color, identity statement,
principles keywords, workflow section, input marker, output marker, quality
section and uncertainty pattern. -/
theorem C3_thm :
    (∀ fm body, lookupPy ("name".toList) fm = none →
      lookupPy ("description".toList) fm = none →
      (skogixChecks fm body).errors = [AgentMsg.missingName, AgentMsg.missingDescription]
      ∧ (skogixChecks fm body).ok = false)
    ∧ ∀ s t,
      skogixChecks [("name".toList, PyVal.str s), ("description".toList, PyVal.str t)] [] =
        ⟨[], [AgentMsg.missingColor, AgentMsg.missingIdentity, AgentMsg.missingPrinciples,
              AgentMsg.missingHardToVary, AgentMsg.missingPopper, AgentMsg.missingKiss,
              AgentMsg.missingWorkflow, AgentMsg.missingInput, AgentMsg.missingOutput,
              AgentMsg.missingQuality, AgentMsg.missingUncertainty], true⟩
      ∧ ∀ cat : WarnCat, cat ∈
          ((skogixChecks [("name".toList, PyVal.str s),
              ("description".toList, PyVal.str t)] []).warnings.filterMap warnCategory) := by
  constructor
  · intro fm body h1 h2
    have h1' : lookupPy ['n', 'a', 'm', 'e'] fm = none := h1
    have h2' : lookupPy ['d', 'e', 's', 'c', 'r', 'i', 'p', 't', 'i', 'o', 'n'] fm = none := h2
    simp [skogixChecks, requiredFieldErrs, h1', h2']
  · intro s t
    refine ⟨rfl, ?_⟩
    intro cat
    have hw : (skogixChecks [("name".toList, PyVal.str s),
        ("description".toList, PyVal.str t)] []).warnings =
      [AgentMsg.missingColor, AgentMsg.missingIdentity, AgentMsg.missingPrinciples,
       AgentMsg.missingHardToVary, AgentMsg.missingPopper, AgentMsg.missingKiss,
       AgentMsg.missingWorkflow, AgentMsg.missingInput, AgentMsg.missingOutput,
       AgentMsg.missingQuality, AgentMsg.missingUncertainty] := rfl
    rw [hw]
    cases cat <;> decide

/-- C3 (witness): concrete runs of both halves — the empty mapping gives
the two errors and fails, the minimal mapping passes. -/
theorem C3_witness :
    lookupPy ("name".toList) [] = none
    ∧ (skogixChecks [] []).errors = [AgentMsg.missingName, AgentMsg.missingDescription]
    ∧ (skogixChecks [] []).ok = false
    ∧ (skogixChecks [("name".toList, PyVal.str []),
        ("description".toList, PyVal.str [])] []).ok = true := by
  refine ⟨rfl, (C3_thm.1 [] [] rfl rfl).1, (C3_thm.1 [] [] rfl rfl).2, ?_⟩
  rw [(C3_thm.2 [] []).1]

/-! ## Command validation (validate_command.py) and command creation
(create_command.py) -/

/-- Findings emitted by the command validator. -/
inductive CmdMsg where
  | kebabError
  | nameTooLong (n : Nat)
  | nameTooShort
  | fileEmpty
  | contentShort
  | missingTitle
  | missingArguments
  | manyArguments (n : Nat)
  | foundArguments (n : Nat)
  | missingTask
  | foundTask
  | missingProcess
  | foundProcess
  | noHeadings
  | firstHeadingNotH1 (lvl : Nat)
  | headingJump (prev curr line : Nat)
  | foundHeadings (n : Nat)
  | processNoSteps
  | processTooFew (n : Nat)
  | processTooMany (n : Nat)
  | processCount (n : Nat)
  | noBestPractices
  | hasBestPractices
  | hasAdaptationInfo
  | noAdaptation
  | codeBlocks (n : Nat)
deriving DecidableEq

/-- The validator's three severity-tagged accumulation lists. -/
structure Findings where
  errors : List CmdMsg
  warnings : List CmdMsg
  info : List CmdMsg
deriving DecidableEq

/-- Concatenate the findings of a sequence of checks, in order. -/
def joinF : List Findings → Findings
  | [] => ⟨[], [], []⟩
  | f :: fs =>
    let r := joinF fs
    ⟨f.errors ++ r.errors, f.warnings ++ r.warnings, f.info ++ r.info⟩

/-! ### Kebab-case: the validator regex and the create-command character check -/

/-- Lowercase ASCII letter or digit: the class `[a-z0-9]`. -/
def isLowerDigit (c : Char) : Bool := isLowerCh c || isDigitCh c

/-- State of the kebab regex `^[a-z0-9]+(-[a-z0-9]+)*$` after at least one
group character has been read: accept more group characters, or a hyphen
that must be followed by a fresh group. -/
def kebabRun : List Char → Bool
  | [] => true
  | c :: rest =>
    if isLowerDigit c then kebabRun rest
    else if c = '-' then
      match rest with
      | [] => false
      | d :: rest2 => isLowerDigit d && kebabRun rest2
    else false

/-- Whole-string acceptance of the regex `^[a-z0-9]+(-[a-z0-9]+)*$`. -/
def kebabCheck (s : List Char) : Bool :=
  match s with
  | [] => false
  | c :: rest => isLowerDigit c && kebabRun rest

/-- The file-naming kebab test of `validate_command.py` line 66:
`re.match (r'^[a-z0-9]+(-[a-z0-9]+)*$', name)`.  Python's `$` also matches
just before a single trailing newline, hence the second disjunct. -/
def validatorKebabOk (s : List Char) : Bool :=
  kebabCheck s || (if s.getLast? = some '\n' then kebabCheck s.dropLast else false)

/-- The command-name gate of `create_command.py` lines 511–517: every
character is lowercase, a digit or a hyphen, and the name neither starts nor
ends with a hyphen. -/
def createNameAccepted (s : List Char) : Bool :=
  s.all (fun c => isLowerCh c || isDigitCh c || c == '-')
    && !(s.head? == some '-')
    && !(s.getLast? == some '-')

/-- Check 1, `_check_file_naming` (lines 61–81): kebab-case error plus the
length warnings on the file-name stem. -/
def checkFileNaming (stem : List Char) : Findings :=
  ⟨(if validatorKebabOk stem then [] else [CmdMsg.kebabError]),
   (if 50 < stem.length then [CmdMsg.nameTooLong stem.length] else [])
     ++ (if stem.length < 3 then [CmdMsg.nameTooShort] else []),
   []⟩

/-! ### Content structure -/

/-- Search for a title line: `re.search (r'^# .+', content, re.MULTILINE)` —
some line starts with `#`, a space, and at least one further character. -/
def hasH1 (content : List Char) : Bool :=
  (splitLines content).any fun l =>
    match l with
    | '#' :: ' ' :: _ :: _ => true
    | _ => false

/-- Check 2, `_check_content_structure` (lines 83–95): an empty (after
strip) file yields only the emptiness error — the check returns early, so
neither the shortness warning nor the missing-title error is emitted in that
case. -/
def checkContentStructure (content : List Char) : Findings :=
  if (pyStrip content).isEmpty then ⟨[CmdMsg.fileEmpty], [], []⟩
  else
    ⟨(if hasH1 content then [] else [CmdMsg.missingTitle]),
     (if content.length < 100 then [CmdMsg.contentShort] else []),
     []⟩

/-! ### The `$ARGUMENTS` placeholder -/

/-- The literal placeholder token. -/
def argToken : List Char := "$ARGUMENTS".toList

/-- Check 3, `_check_arguments_placeholder` (lines 97–110). -/
def checkArguments (content : List Char) : Findings :=
  if hasSub argToken content then
    ⟨[],
     (if 5 < countSub argToken content
      then [CmdMsg.manyArguments (countSub argToken content)] else []),
     [CmdMsg.foundArguments (countSub argToken content)]⟩
  else ⟨[CmdMsg.missingArguments], [], []⟩

/-! ### Required sections -/

/-- Literal `## Task`. -/
def taskTok : List Char := "## Task".toList

/-- Literal `## Process`. -/
def procTok : List Char := "## Process".toList

/-- Check 4, `_check_required_sections` (lines 112–123). -/
def checkRequiredSections (content : List Char) : Findings :=
  ⟨(if hasSub taskTok content then [] else [CmdMsg.missingTask])
     ++ (if hasSub procTok content then [] else [CmdMsg.missingProcess]),
   [],
   (if hasSub taskTok content then [CmdMsg.foundTask] else [])
     ++ (if hasSub procTok content then [CmdMsg.foundProcess] else [])⟩

/-! ### Heading hierarchy -/

/-- Is a line counted as a heading?  `line.strip ().startswith ('#')`. -/
def isHeadingLine (l : List Char) : Bool :=
  match pyStrip l with
  | '#' :: _ => true
  | _ => false

/-- Heading level: `len (line) - len (line.lstrip ('#'))`, the number of
leading `#` characters of the raw (unstripped) line. -/
def headingLevel (l : List Char) : Nat :=
  (l.takeWhile (fun c => c == '#')).length

/-- All `(level, lineNumber)` pairs of heading lines, in document order,
with 1-based line numbers, as collected by `_check_heading_structure`
lines 127–134.  (The heading text is also collected there but never used.) -/
def headingsOf (content : List Char) : List (Nat × Nat) :=
  (numberFrom 1 (splitLines content)).filterMap fun p =>
    if isHeadingLine p.2 then some (headingLevel p.2, p.1) else none

/-- The hierarchy-jump loop of lines 145–150: one warning, citing the line
number, for each heading whose level exceeds its predecessor's by more than
one. -/
def jumpWarns : Nat → List (Nat × Nat) → List CmdMsg
  | _, [] => []
  | prev, (lv, ln) :: rest =>
    (if prev + 1 < lv then [CmdMsg.headingJump prev lv ln] else []) ++ jumpWarns lv rest

/-- Check 5, `_check_heading_structure` (lines 125–152). -/
def checkHeadingStructure (content : List Char) : Findings :=
  match headingsOf content with
  | [] => ⟨[CmdMsg.noHeadings], [], []⟩
  | h0 :: rest =>
    ⟨[],
     (if h0.1 = 1 then [] else [CmdMsg.firstHeadingNotH1 h0.1]) ++ jumpWarns h0.1 rest,
     [CmdMsg.foundHeadings (h0 :: rest).length]⟩

/-! ### Process steps

`_check_process_steps` (lines 154–187) extracts the Process section with
`re.search (r'## Process\s*\n(.*?)(?=\n##|\Z)', content, re.DOTALL)` and
counts numbered items in the extracted group with
`re.findall (r'^\d+\.\s+.+', group, re.MULTILINE)`. -/

/-- After the literal `## Process`, the greedy `\s*\n` consumes the maximal
whitespace run up to and including its last newline; return the remainder,
or `none` when the whitespace run contains no newline (so the section
pattern does not match here). -/
def dropThroughLastWsNewline : List Char → Option (List Char)
  | [] => none
  | c :: rest =>
    if c = '\n' then
      match dropThroughLastWsNewline rest with
      | some r => some r
      | none => some rest
    else if isWs c then dropThroughLastWsNewline rest
    else none

/-- The group `(.*?)(?=\n##|\Z)`: everything up to (excluding) the first
newline that is immediately followed by `##`, or to the end of the text. -/
def takeUntilHashClose : List Char → List Char
  | '\n' :: '#' :: '#' :: _ => []
  | c :: rest => c :: takeUntilHashClose rest
  | [] => []

/-- Leftmost match of the Process-section regex: scan for the literal
`## Process`, require the `\s*\n` opening, and extract the group. -/
def findProcessGroup : List Char → Option (List Char)
  | [] => none
  | c :: rest =>
    if procTok.isPrefixOf (c :: rest) then
      match dropThroughLastWsNewline ((c :: rest).drop procTok.length) with
      | some tail => some (takeUntilHashClose tail)
      | none => findProcessGroup rest
    else findProcessGroup rest

/-- Trailing run of newlines of a text. -/
def trailNewlines (w : List Char) : List Char :=
  (w.reverse.takeWhile (fun c => c == '\n')).reverse

/-- Match `\s+.+` (greedy, with backtracking) against the text after the
digits and the dot, returning the unconsumed remainder on success.  With
`w` the maximal whitespace run and `r3` the rest: if `r3` is non-empty the
engine keeps all of `w` and `.+` eats `r3` up to the next newline; if `r3`
is empty a match needs some non-newline character in `w` after its first
element, and only `w`'s trailing newlines remain unconsumed. -/
def stepTail (r2 : List Char) : Option (List Char) :=
  if (r2.takeWhile isWs).isEmpty then none
  else if (r2.dropWhile isWs).isEmpty then
    if (r2.takeWhile isWs).tail.any (fun c => c != '\n') then
      some (trailNewlines (r2.takeWhile isWs))
    else none
  else some ((r2.dropWhile isWs).dropWhile (fun c => c != '\n'))

/-- Match `\d+\.\s+.+` at the current position, returning the remainder
after the match. -/
def tryStep (s : List Char) : Option (List Char) :=
  if (s.takeWhile isDigitCh).isEmpty then none
  else
    match s.dropWhile isDigitCh with
    | '.' :: r2 => stepTail r2
    | _ => none

/-- The `findall` scan over the extracted group: count non-overlapping
matches of `^\d+\.\s+.+` (MULTILINE), attempting a match only at line
starts and resuming after each match.  The fuel argument makes the
recursion structural; every call consumes at least one character (a
successful `tryStep` strictly shortens the text), so fuel equal to the
group length never runs out. -/
def stepsScan : Nat → List Char → Bool → Nat
  | 0, _, _ => 0
  | _, [], _ => 0
  | fuel + 1, c :: rest, atStart =>
    if atStart then
      match tryStep (c :: rest) with
      | some r => 1 + stepsScan fuel r false
      | none => stepsScan fuel rest (c == '\n')
    else stepsScan fuel rest (c == '\n')

/-- Number of numbered steps found in a Process-section group. -/
def countSteps (g : List Char) : Nat := stepsScan g.length g true

/-- Check 6, `_check_process_steps` (lines 154–187). -/
def checkProcessSteps (content : List Char) : Findings :=
  match findProcessGroup content with
  | none => ⟨[], [], []⟩
  | some g =>
    if countSteps g = 0 then ⟨[], [CmdMsg.processNoSteps], []⟩
    else if countSteps g < 3 then ⟨[], [CmdMsg.processTooFew (countSteps g)], []⟩
    else if 10 < countSteps g then ⟨[], [CmdMsg.processTooMany (countSteps g)], []⟩
    else ⟨[], [], [CmdMsg.processCount (countSteps g)]⟩

/-! ### Best practices -/

/-- Triple-backtick fence marker. -/
def fenceTok : List Char := "```".toList

/-- Third adaptation pattern `following.*(project|your).*patterns`
(case-insensitive, `.` does not cross newlines) tested within one line of
the lowered text. -/
def adaptThird (l : List Char) : Bool :=
  match findAfterSub ("following".toList) l with
  | none => false
  | some r1 =>
    (match findAfterSub ("project".toList) r1 with
     | some r2 => hasSub ("patterns".toList) r2
     | none => false)
    || (match findAfterSub ("your".toList) r1 with
        | some r2 => hasSub ("patterns".toList) r2
        | none => false)

/-- The adaptation-statement search of lines 200–209: any of the three
case-insensitive patterns somewhere in the content. -/
def hasAdaptation (content : List Char) : Bool :=
  hasSub ("i\x27ll adapt".toList) (lowerStr content)
    || hasSub ("adapt to your".toList) (lowerStr content)
    || (splitLines (lowerStr content)).any adaptThird

/-- Check 7, `_check_best_practices` (lines 189–221). -/
def checkBestPractices (content : List Char) : Findings :=
  ⟨[],
   (if hasSub ("## Best Practices".toList) content
       || hasSub ("## Best practices".toList) content
    then [] else [CmdMsg.noBestPractices])
     ++ (if hasAdaptation content then [] else [CmdMsg.noAdaptation]),
   (if hasSub ("## Best Practices".toList) content
       || hasSub ("## Best practices".toList) content
    then [CmdMsg.hasBestPractices] else [])
     ++ (if hasAdaptation content then [CmdMsg.hasAdaptationInfo] else [])
     ++ (if 0 < countSub fenceTok content
         then [CmdMsg.codeBlocks (countSub fenceTok content / 2)] else [])⟩

/-- The whole check sequence of `validate` (lines 50–57) applied to a
successfully read file: file-name stem and content, all seven checks run
unconditionally, findings accumulated in order. -/
def validateCommand (stem content : List Char) : Findings :=
  joinF [checkFileNaming stem, checkContentStructure content,
         checkArguments content, checkRequiredSections content,
         checkHeadingStructure content, checkProcessSteps content,
         checkBestPractices content]

/-- Overall verdict (line 59): pass iff no errors. -/
def commandValid (stem content : List Char) : Bool :=
  (validateCommand stem content).errors.isEmpty

/-! ### Kebab-case lemmas (C4) -/

theorem isLowerDigit_ne_dash {c : Char} (h : isLowerDigit c = true) : c ≠ '-' := by
  intro hc
  subst hc
  exact absurd h (by decide)

theorem getLast_opt_mem : ∀ (l : List Char) (a : Char), l.getLast? = some a → a ∈ l := by
  intro l
  induction l with
  | nil => intro a h; simp at h
  | cons x t ih =>
    intro a h
    cases t with
    | nil =>
      simp [List.getLast?] at h
      simp [h]
    | cons y t2 =>
      rw [List.getLast?_cons_cons] at h
      exact List.mem_cons.mpr (Or.inr (ih a h))

theorem kebabRun_cons_ld {c : Char} (rest : List Char) (h : isLowerDigit c = true) :
    kebabRun (c :: rest) = kebabRun rest := by
  cases rest with
  | nil => simp [kebabRun, h]
  | cons d r2 => simp [kebabRun, h]

theorem kebabRun_dash_cons (d : Char) (rest2 : List Char) :
    kebabRun ('-' :: d :: rest2) = (isLowerDigit d && kebabRun rest2) := by
  simp [kebabRun, show isLowerDigit '-' = false from by decide]

theorem kebabRun_bad {c : Char} (rest : List Char) (h1 : isLowerDigit c = false)
    (h2 : c ≠ '-') : kebabRun (c :: rest) = false := by
  cases rest with
  | nil => simp [kebabRun, h1, h2]
  | cons d r2 => simp [kebabRun, h1, h2]

theorem kebabRun_props : ∀ (n : Nat) (t : List Char), t.length ≤ n → kebabRun t = true →
    t.all (fun c => isLowerCh c || isDigitCh c || c == '-') = true
    ∧ t.getLast? ≠ some '-' := by
  intro n
  induction n with
  | zero =>
    intro t ht _
    have : t = [] := List.length_eq_zero.mp (Nat.le_zero.mp ht)
    subst this
    exact ⟨rfl, by simp⟩
  | succ n ih =>
    intro t ht h
    cases t with
    | nil => exact ⟨rfl, by simp⟩
    | cons c rest =>
      by_cases hld : isLowerDigit c = true
      · rw [kebabRun_cons_ld rest hld] at h
        have hrest : rest.length ≤ n := by
          simp [List.length_cons] at ht
          omega
        obtain ⟨h1, h2⟩ := ih rest hrest h
        have hcok : (isLowerCh c || isDigitCh c || c == '-') = true := by
          rw [isLowerDigit, Bool.or_eq_true] at hld
          rcases hld with hl | hd
          · simp [hl]
          · simp [hd]
        refine ⟨by simp [List.all_cons, hcok, h1], ?_⟩
        cases rest with
        | nil =>
          intro hx
          simp only [List.getLast?_singleton, Option.some.injEq] at hx
          exact isLowerDigit_ne_dash hld hx
        | cons d rest2 =>
          rw [List.getLast?_cons_cons]
          exact h2
      · rw [Bool.not_eq_true] at hld
        by_cases hdash : c = '-'
        · subst hdash
          cases rest with
          | nil => exact absurd h (by decide)
          | cons d rest2 =>
            rw [kebabRun_dash_cons, Bool.and_eq_true] at h
            obtain ⟨hd, hrun⟩ := h
            have hrest2 : rest2.length ≤ n := by
              simp [List.length_cons] at ht
              omega
            obtain ⟨h1, h2⟩ := ih rest2 hrest2 hrun
            have hdok : (isLowerCh d || isDigitCh d || d == '-') = true := by
              rw [isLowerDigit, Bool.or_eq_true] at hd
              rcases hd with hl | hdd
              · simp [hl]
              · simp [hdd]
            refine ⟨by simp [List.all_cons, h1, hdok], ?_⟩
            rw [List.getLast?_cons_cons]
            cases rest2 with
            | nil =>
              intro hx
              simp only [List.getLast?_singleton, Option.some.injEq] at hx
              exact isLowerDigit_ne_dash hd hx
            | cons e rest3 =>
              rw [List.getLast?_cons_cons]
              exact h2
        · rw [kebabRun_bad rest hld hdash] at h
          exact absurd h (by simp)

theorem kebabCheck_imp_create (s : List Char) (h : kebabCheck s = true) :
    createNameAccepted s = true := by
  cases s with
  | nil => exact absurd h (by decide)
  | cons c rest =>
    replace h : (isLowerDigit c && kebabRun rest) = true := h
    rw [Bool.and_eq_true] at h
    obtain ⟨hc, hrun⟩ := h
    obtain ⟨h1, h2⟩ := kebabRun_props rest.length rest le_rfl hrun
    have hcok : (isLowerCh c || isDigitCh c || c == '-') = true := by
      rw [isLowerDigit, Bool.or_eq_true] at hc
      rcases hc with hl | hd
      · simp [hl]
      · simp [hd]
    rw [createNameAccepted]
    have hall : (c :: rest).all (fun c => isLowerCh c || isDigitCh c || c == '-') = true := by
      simp [List.all_cons, hcok, h1]
    have hhead : ((c :: rest).head? == some '-') = false := by
      have hcd : c ≠ '-' := isLowerDigit_ne_dash hc
      simp [List.head?, hcd]
    have hlast : ((c :: rest).getLast? == some '-') = false := by
      cases rest with
      | nil =>
        have hcd : c ≠ '-' := isLowerDigit_ne_dash hc
        simp [List.getLast?_singleton, hcd]
      | cons d rest2 =>
        rw [List.getLast?_cons_cons]
        simp only [beq_eq_false_iff_ne, ne_eq]
        exact h2
    rw [hall, hhead, hlast]
    rfl

/-- C4 (counterexample): the name `a--b` (adjacent hyphens) and the empty
name pass `create_command.py`'s character-level gate but fail the
validator's kebab-case regex, so the two checks do not accept the same set
of strings. -/
theorem C4_counterexample :
    createNameAccepted ("a--b".toList) = true
    ∧ validatorKebabOk ("a--b".toList) = false
    ∧ createNameAccepted [] = true
    ∧ validatorKebabOk [] = false := by
  decide

/-- C4 (amended): the inclusion holds in one direction only — for every
newline-free name accepted by the validator's kebab-case regex,
create-command's gate also accepts it (the converse fails, e.g. on `a--b`
and on the empty string). -/
theorem C4_amended (s : List Char) (hnl : '\n' ∉ s)
    (hok : validatorKebabOk s = true) : createNameAccepted s = true := by
  rw [validatorKebabOk, Bool.or_eq_true] at hok
  rcases hok with h | h
  · exact kebabCheck_imp_create s h
  · by_cases hlast : s.getLast? = some '\n'
    · exact absurd (getLast_opt_mem s '\n' hlast) hnl
    · rw [if_neg hlast] at h
      exact absurd h (by simp)

/-- C4 (witness): `my-command` is newline-free, passes the validator regex,
and is accepted by create-command. -/
theorem C4_witness :
    '\n' ∉ ("my-command".toList)
    ∧ validatorKebabOk ("my-command".toList) = true
    ∧ createNameAccepted ("my-command".toList) = true :=
  ⟨by decide, by decide, C4_amended ("my-command".toList) (by decide) (by decide)⟩

/-! ### Decomposition of the full validator run -/

theorem validateCommand_errors (stem content : List Char) :
    (validateCommand stem content).errors =
      (checkFileNaming stem).errors ++ ((checkContentStructure content).errors
        ++ ((checkArguments content).errors ++ ((checkRequiredSections content).errors
        ++ ((checkHeadingStructure content).errors ++ ((checkProcessSteps content).errors
        ++ ((checkBestPractices content).errors ++ [])))))) := rfl

theorem validateCommand_warnings (stem content : List Char) :
    (validateCommand stem content).warnings =
      (checkFileNaming stem).warnings ++ ((checkContentStructure content).warnings
        ++ ((checkArguments content).warnings ++ ((checkRequiredSections content).warnings
        ++ ((checkHeadingStructure content).warnings ++ ((checkProcessSteps content).warnings
        ++ ((checkBestPractices content).warnings ++ [])))))) := rfl

theorem validateCommand_info (stem content : List Char) :
    (validateCommand stem content).info =
      (checkFileNaming stem).info ++ ((checkContentStructure content).info
        ++ ((checkArguments content).info ++ ((checkRequiredSections content).info
        ++ ((checkHeadingStructure content).info ++ ((checkProcessSteps content).info
        ++ ((checkBestPractices content).info ++ [])))))) := rfl

/-! ### Case equations for the match-based checks -/

theorem checkHeadingStructure_nil (content : List Char)
    (h : headingsOf content = []) :
    checkHeadingStructure content = ⟨[CmdMsg.noHeadings], [], []⟩ := by
  unfold checkHeadingStructure
  rw [h]

theorem checkHeadingStructure_cons (content : List Char) (h0 : Nat × Nat)
    (rest : List (Nat × Nat)) (h : headingsOf content = h0 :: rest) :
    checkHeadingStructure content =
      ⟨[],
       (if h0.1 = 1 then [] else [CmdMsg.firstHeadingNotH1 h0.1]) ++ jumpWarns h0.1 rest,
       [CmdMsg.foundHeadings (h0 :: rest).length]⟩ := by
  unfold checkHeadingStructure
  rw [h]

theorem checkProcessSteps_none (content : List Char)
    (h : findProcessGroup content = none) :
    checkProcessSteps content = ⟨[], [], []⟩ := by
  unfold checkProcessSteps
  rw [h]

theorem checkProcessSteps_some (content : List Char) (g : List Char)
    (h : findProcessGroup content = some g) :
    checkProcessSteps content =
      (if countSteps g = 0 then ⟨[], [CmdMsg.processNoSteps], []⟩
       else if countSteps g < 3 then ⟨[], [CmdMsg.processTooFew (countSteps g)], []⟩
       else if 10 < countSteps g then ⟨[], [CmdMsg.processTooMany (countSteps g)], []⟩
       else ⟨[], [], [CmdMsg.processCount (countSteps g)]⟩) := by
  unfold checkProcessSteps
  rw [h]

/-! ### Shape lemmas: which messages each check can emit -/

theorem jumpWarns_shape : ∀ (prev : Nat) (l : List (Nat × Nat)) (m : CmdMsg),
    m ∈ jumpWarns prev l → ∃ p c ln, m = CmdMsg.headingJump p c ln := by
  intro prev l
  induction l generalizing prev with
  | nil => intro m hm; simp [jumpWarns] at hm
  | cons hd tl ih =>
    intro m hm
    rcases hd with ⟨lv, ln⟩
    rw [jumpWarns, List.mem_append] at hm
    rcases hm with hm | hm
    · split_ifs at hm
      · simp at hm
        exact ⟨prev, lv, ln, hm⟩
      · simp at hm
    · exact ih lv m hm

theorem processSteps_errors (content : List Char) :
    (checkProcessSteps content).errors = [] := by
  cases hh : findProcessGroup content with
  | none => rw [checkProcessSteps_none content hh]
  | some g =>
    rw [checkProcessSteps_some content g hh]
    split_ifs <;> rfl

theorem bestPractices_errors (content : List Char) :
    (checkBestPractices content).errors = [] := rfl

theorem contentStructure_info (content : List Char) :
    (checkContentStructure content).info = [] := by
  unfold checkContentStructure
  split_ifs <;> rfl

theorem requiredSections_warnings (content : List Char) :
    (checkRequiredSections content).warnings = [] := rfl

/-- Messages of the `$ARGUMENTS` check never come from the other six checks:
the missing-placeholder error, the occurrence-count info and the
too-many-occurrences warning each occur only in `_check_arguments_placeholder`'s
output. -/
theorem argMsgs_not_in_others (stem content : List Char) (n : Nat) :
    (CmdMsg.missingArguments ∉ (checkFileNaming stem).errors
      ∧ CmdMsg.missingArguments ∉ (checkContentStructure content).errors
      ∧ CmdMsg.missingArguments ∉ (checkRequiredSections content).errors
      ∧ CmdMsg.missingArguments ∉ (checkHeadingStructure content).errors)
    ∧ (CmdMsg.foundArguments n ∉ (checkFileNaming stem).info
      ∧ CmdMsg.foundArguments n ∉ (checkRequiredSections content).info
      ∧ CmdMsg.foundArguments n ∉ (checkHeadingStructure content).info
      ∧ CmdMsg.foundArguments n ∉ (checkProcessSteps content).info
      ∧ CmdMsg.foundArguments n ∉ (checkBestPractices content).info)
    ∧ (CmdMsg.manyArguments n ∉ (checkFileNaming stem).warnings
      ∧ CmdMsg.manyArguments n ∉ (checkContentStructure content).warnings
      ∧ CmdMsg.manyArguments n ∉ (checkHeadingStructure content).warnings
      ∧ CmdMsg.manyArguments n ∉ (checkProcessSteps content).warnings
      ∧ CmdMsg.manyArguments n ∉ (checkBestPractices content).warnings) := by
  refine ⟨⟨?_, ?_, ?_, ?_⟩, ⟨?_, ?_, ?_, ?_, ?_⟩, ⟨?_, ?_, ?_, ?_, ?_⟩⟩
  · simp only [checkFileNaming]
    split_ifs <;> simp
  · unfold checkContentStructure
    split_ifs <;> simp
  · simp only [checkRequiredSections]
    split_ifs <;> simp
  · cases hh : headingsOf content with
    | nil => rw [checkHeadingStructure_nil content hh]; simp
    | cons h0 rest => rw [checkHeadingStructure_cons content h0 rest hh]; simp
  · simp only [checkFileNaming]
    simp
  · simp only [checkRequiredSections]
    split_ifs <;> simp
  · cases hh : headingsOf content with
    | nil => rw [checkHeadingStructure_nil content hh]; simp
    | cons h0 rest => rw [checkHeadingStructure_cons content h0 rest hh]; simp
  · cases hh : findProcessGroup content with
    | none => rw [checkProcessSteps_none content hh]; simp
    | some g =>
      rw [checkProcessSteps_some content g hh]
      split_ifs <;> simp
  · simp only [checkBestPractices]
    split_ifs <;> simp
  · simp only [checkFileNaming]
    split_ifs <;> simp
  · unfold checkContentStructure
    split_ifs <;> simp
  · cases hh : headingsOf content with
    | nil => rw [checkHeadingStructure_nil content hh]; simp
    | cons h0 rest =>
      rw [checkHeadingStructure_cons content h0 rest hh]
      intro hm
      rw [List.mem_append] at hm
      rcases hm with hm | hm
      · split_ifs at hm <;> simp at hm
      · obtain ⟨p, c, ln, heq⟩ := jumpWarns_shape h0.1 rest _ hm
        exact absurd heq (by simp)
  · cases hh : findProcessGroup content with
    | none => rw [checkProcessSteps_none content hh]; simp
    | some g =>
      rw [checkProcessSteps_some content g hh]
      split_ifs <;> simp
  · simp only [checkBestPractices]
    split_ifs <;> simp

/-- C5: in a full validator run, if the literal `$ARGUMENTS` token is absent
the run contains exactly one missing-placeholder error and no
occurrence-count info; if it is present there is no such error, exactly one
info finding reporting the occurrence count, a too-many warning exactly when
the count exceeds 5, and no too-many warning otherwise. -/
theorem C5_thm (stem content : List Char) :
    (hasSub argToken content = false →
      (validateCommand stem content).errors.count CmdMsg.missingArguments = 1
      ∧ ∀ n, CmdMsg.foundArguments n ∉ (validateCommand stem content).info)
    ∧ (hasSub argToken content = true →
      (validateCommand stem content).errors.count CmdMsg.missingArguments = 0
      ∧ (validateCommand stem content).info.count
          (CmdMsg.foundArguments (countSub argToken content)) = 1
      ∧ (5 < countSub argToken content →
          CmdMsg.manyArguments (countSub argToken content)
            ∈ (validateCommand stem content).warnings)
      ∧ (countSub argToken content ≤ 5 →
          ∀ m, CmdMsg.manyArguments m ∉ (validateCommand stem content).warnings)) := by
  have herr := validateCommand_errors stem content
  have hinfo := validateCommand_info stem content
  have hwarn := validateCommand_warnings stem content
  have hz1 : (checkFileNaming stem).errors.count CmdMsg.missingArguments = 0 :=
    List.count_eq_zero.mpr ((argMsgs_not_in_others stem content 0).1.1)
  have hz2 : (checkContentStructure content).errors.count CmdMsg.missingArguments = 0 :=
    List.count_eq_zero.mpr ((argMsgs_not_in_others stem content 0).1.2.1)
  have hz4 : (checkRequiredSections content).errors.count CmdMsg.missingArguments = 0 :=
    List.count_eq_zero.mpr ((argMsgs_not_in_others stem content 0).1.2.2.1)
  have hz5 : (checkHeadingStructure content).errors.count CmdMsg.missingArguments = 0 :=
    List.count_eq_zero.mpr ((argMsgs_not_in_others stem content 0).1.2.2.2)
  constructor
  · intro hno
    have hargF : checkArguments content = ⟨[CmdMsg.missingArguments], [], []⟩ := by
      unfold checkArguments
      rw [if_neg (by simp [hno])]
    constructor
    · rw [herr, hargF]
      simp [List.count_append, hz1, hz2, hz4, hz5,
        processSteps_errors, bestPractices_errors]
    · intro n hm
      rw [hinfo, hargF] at hm
      simp only [List.mem_append, List.not_mem_nil, or_false, false_or] at hm
      rcases hm with hm | hm | hm | hm | hm | hm
      · exact (argMsgs_not_in_others stem content n).2.1.1 hm
      · rw [contentStructure_info] at hm
        simp at hm
      · exact (argMsgs_not_in_others stem content n).2.1.2.1 hm
      · exact (argMsgs_not_in_others stem content n).2.1.2.2.1 hm
      · exact (argMsgs_not_in_others stem content n).2.1.2.2.2.1 hm
      · exact (argMsgs_not_in_others stem content n).2.1.2.2.2.2 hm
  · intro hyes
    have hargT : checkArguments content =
        ⟨[],
         (if 5 < countSub argToken content
          then [CmdMsg.manyArguments (countSub argToken content)] else []),
         [CmdMsg.foundArguments (countSub argToken content)]⟩ := by
      unfold checkArguments
      rw [if_pos (by simp [hyes])]
    refine ⟨?_, ?_, ?_, ?_⟩
    · rw [herr, hargT]
      simp [List.count_append, hz1, hz2, hz4, hz5,
        processSteps_errors, bestPractices_errors]
    · rw [hinfo, hargT]
      have hi1 : (checkFileNaming stem).info.count
          (CmdMsg.foundArguments (countSub argToken content)) = 0 :=
        List.count_eq_zero.mpr ((argMsgs_not_in_others stem content _).2.1.1)
      have hi4 : (checkRequiredSections content).info.count
          (CmdMsg.foundArguments (countSub argToken content)) = 0 :=
        List.count_eq_zero.mpr ((argMsgs_not_in_others stem content _).2.1.2.1)
      have hi5 : (checkHeadingStructure content).info.count
          (CmdMsg.foundArguments (countSub argToken content)) = 0 :=
        List.count_eq_zero.mpr ((argMsgs_not_in_others stem content _).2.1.2.2.1)
      have hi6 : (checkProcessSteps content).info.count
          (CmdMsg.foundArguments (countSub argToken content)) = 0 :=
        List.count_eq_zero.mpr ((argMsgs_not_in_others stem content _).2.1.2.2.2.1)
      have hi7 : (checkBestPractices content).info.count
          (CmdMsg.foundArguments (countSub argToken content)) = 0 :=
        List.count_eq_zero.mpr ((argMsgs_not_in_others stem content _).2.1.2.2.2.2)
      simp [List.count_append, hi1, hi4, hi5, hi6, hi7, contentStructure_info]
    · intro h5
      rw [hwarn, hargT]
      simp only [List.mem_append]
      right; right; left
      rw [if_pos h5]
      simp
    · intro h5 m hm
      rw [hwarn, hargT] at hm
      simp only [List.mem_append, List.not_mem_nil, or_false, false_or] at hm
      rcases hm with hm | hm | hm | hm | hm | hm | hm
      · exact (argMsgs_not_in_others stem content m).2.2.1 hm
      · exact (argMsgs_not_in_others stem content m).2.2.2.1 hm
      · rw [if_neg (by omega)] at hm
        simp at hm
      · rw [requiredSections_warnings] at hm
        simp at hm
      · exact (argMsgs_not_in_others stem content m).2.2.2.2.1 hm
      · exact (argMsgs_not_in_others stem content m).2.2.2.2.2.1 hm
      · exact (argMsgs_not_in_others stem content m).2.2.2.2.2.2 hm

/-- C5 (witness): a run without the token yields exactly one
missing-placeholder error, and a run with one occurrence yields the info
count and no error. -/
theorem C5_witness :
    hasSub argToken ("x".toList) = false
    ∧ (validateCommand ("my-command".toList) ("x".toList)).errors.count
        CmdMsg.missingArguments = 1
    ∧ hasSub argToken ("$ARGUMENTS".toList) = true
    ∧ (validateCommand ("my-command".toList) ("$ARGUMENTS".toList)).errors.count
        CmdMsg.missingArguments = 0 :=
  ⟨by decide,
   ((C5_thm ("my-command".toList) ("x".toList)).1 (by decide)).1,
   by decide,
   ((C5_thm ("my-command".toList) ("$ARGUMENTS".toList)).2 (by decide)).1⟩

/-- C6: for a command document, the process-steps check emits no findings
when the Process-section pattern does not match; when it matches with
extracted group `g`, the check warns on zero numbered items, warns "too few"
on one or two items, warns "too many" above ten, and otherwise emits a
single info finding reporting the count. -/
theorem C6_thm (content : List Char) :
    (findProcessGroup content = none → checkProcessSteps content = ⟨[], [], []⟩)
    ∧ ∀ g, findProcessGroup content = some g →
      (countSteps g = 0 → checkProcessSteps content = ⟨[], [CmdMsg.processNoSteps], []⟩)
      ∧ (1 ≤ countSteps g → countSteps g ≤ 2 →
          checkProcessSteps content = ⟨[], [CmdMsg.processTooFew (countSteps g)], []⟩)
      ∧ (10 < countSteps g →
          checkProcessSteps content = ⟨[], [CmdMsg.processTooMany (countSteps g)], []⟩)
      ∧ (3 ≤ countSteps g → countSteps g ≤ 10 →
          checkProcessSteps content = ⟨[], [], [CmdMsg.processCount (countSteps g)]⟩) := by
  constructor
  · exact checkProcessSteps_none content
  · intro g hg
    rw [checkProcessSteps_some content g hg]
    refine ⟨?_, ?_, ?_, ?_⟩
    · intro h0
      rw [if_pos h0]
    · intro ha hb
      rw [if_neg (by omega), if_pos (by omega)]
    · intro h10
      rw [if_neg (by omega), if_neg (by omega), if_pos h10]
    · intro ha hb
      rw [if_neg (by omega), if_neg (by omega), if_neg (by omega)]

/-- C6 (witness): a Process section with a single numbered step draws the
too-few warning. -/
theorem C6_witness :
    findProcessGroup ("## Process\n1. a\n".toList) = some ("1. a\n".toList)
    ∧ checkProcessSteps ("## Process\n1. a\n".toList) =
        ⟨[], [CmdMsg.processTooFew 1], []⟩ := by
  refine ⟨by decide, ?_⟩
  have h := ((C6_thm ("## Process\n1. a\n".toList)).2 ("1. a\n".toList)
    (by decide)).2.1 (by decide) (by decide)
  rw [h]
  decide

/-! ### Heading-jump membership characterisation (C7) -/

theorem jumpWarns_mem : ∀ (hs : List (Nat × Nat)) (a0 b0 p c ln : Nat),
    CmdMsg.headingJump p c ln ∈ jumpWarns a0 hs ↔
      ∃ pl, ((p, pl), (c, ln)) ∈ ((a0, b0) :: hs).zip hs ∧ p + 1 < c := by
  intro hs
  induction hs with
  | nil =>
    intro a0 b0 p c ln
    simp [jumpWarns]
  | cons hd tl ih =>
    intro a0 b0 p c ln
    rcases hd with ⟨lv, ln2⟩
    rw [jumpWarns, List.zip_cons_cons, List.mem_append]
    constructor
    · intro hm
      rcases hm with hm | hm
      · split_ifs at hm with hcond
        · simp only [List.mem_singleton] at hm
          injection hm with e1 e2 e3
          subst e1
          subst e2
          subst e3
          exact ⟨b0, List.mem_cons.mpr (Or.inl rfl), by omega⟩
        · simp at hm
      · obtain ⟨pl, hmem, hlt⟩ := (ih lv ln2 p c ln).mp hm
        exact ⟨pl, List.mem_cons.mpr (Or.inr hmem), hlt⟩
    · rintro ⟨pl, hmem, hlt⟩
      rcases List.mem_cons.mp hmem with heq | hmem2
      · left
        rw [Prod.ext_iff, Prod.ext_iff, Prod.ext_iff] at heq
        obtain ⟨⟨e1, e2⟩, e3, e4⟩ := heq
        dsimp only at e1 e2 e3 e4
        subst e1
        subst e3
        subst e4
        rw [if_pos (by omega)]
        simp
      · right
        exact (ih lv ln2 p c ln).mpr ⟨pl, hmem2, hlt⟩

/-- C7: the heading-hierarchy check collects all heading lines (by
stripped-prefix test) with their raw leading-`#` level and 1-based line
number in document order; it never errs when headings exist, warns when the
first heading is not level 1, and emits one jump warning, citing the line
number, exactly for each heading whose level exceeds its immediate
predecessor's by more than one. -/
theorem C7_thm (content : List Char) (h0 : Nat × Nat) (hs : List (Nat × Nat))
    (h : headingsOf content = h0 :: hs) :
    (checkHeadingStructure content).errors = []
    ∧ (checkHeadingStructure content).warnings =
        (if h0.1 = 1 then [] else [CmdMsg.firstHeadingNotH1 h0.1]) ++ jumpWarns h0.1 hs
    ∧ (∀ p c ln, CmdMsg.headingJump p c ln ∈ (checkHeadingStructure content).warnings ↔
        ∃ pl, ((p, pl), (c, ln)) ∈ ((h0 :: hs).zip hs) ∧ p + 1 < c)
    ∧ (checkHeadingStructure content).info = [CmdMsg.foundHeadings (h0 :: hs).length] := by
  rw [checkHeadingStructure_cons content h0 hs h]
  refine ⟨rfl, rfl, ?_, rfl⟩
  intro p c ln
  obtain ⟨a0, b0⟩ := h0
  dsimp only
  rw [← jumpWarns_mem hs a0 b0 p c ln]
  rw [List.mem_append]
  constructor
  · rintro (hm | hm)
    · split_ifs at hm <;> simp at hm
    · exact hm
  · intro hm
    exact Or.inr hm

/-- C7 (witness): a level-1 heading directly followed by a level-3 heading
on line 2 draws exactly the jump warning citing line 2. -/
theorem C7_witness :
    headingsOf ("# a\n### b".toList) = [(1, 1), (3, 2)]
    ∧ (checkHeadingStructure ("# a\n### b".toList)).warnings =
        [CmdMsg.headingJump 1 3 2] := by
  refine ⟨by decide, ?_⟩
  have h := (C7_thm ("# a\n### b".toList) (1, 1) [(3, 2)] (by decide)).2.1
  rw [h]
  decide

/-! ### C9: independence of the checks and the empty-file case -/

/-- C9 (counterexample): an empty-content file does not receive the
missing-H1 error — the content-structure check returns early with only the
file-is-empty error — even though all other checks do run (the missing
placeholder, missing sections and no-headings errors are all present). -/
theorem C9_counterexample :
    CmdMsg.missingTitle ∉ (validateCommand ("my-command".toList) []).errors
    ∧ CmdMsg.fileEmpty ∈ (validateCommand ("my-command".toList) []).errors
    ∧ CmdMsg.missingArguments ∈ (validateCommand ("my-command".toList) []).errors
    ∧ CmdMsg.missingTask ∈ (validateCommand ("my-command".toList) []).errors
    ∧ CmdMsg.missingProcess ∈ (validateCommand ("my-command".toList) []).errors
    ∧ CmdMsg.noHeadings ∈ (validateCommand ("my-command".toList) []).errors := by
  decide

/-- C9 (amended): no check short-circuits another — for an empty-content
file every other check still contributes its findings (the placeholder,
required-section and no-headings errors and the best-practice warnings all
appear) — but the missing-H1 error is not among them, because the
content-structure check itself returns early on empty content with only the
file-is-empty error. -/
theorem C9_amended (stem : List Char) (h : validatorKebabOk stem = true) :
    (validateCommand stem []).errors =
      [CmdMsg.fileEmpty, CmdMsg.missingArguments, CmdMsg.missingTask,
       CmdMsg.missingProcess, CmdMsg.noHeadings]
    ∧ CmdMsg.missingTitle ∉ (validateCommand stem []).errors
    ∧ CmdMsg.noBestPractices ∈ (validateCommand stem []).warnings
    ∧ CmdMsg.noAdaptation ∈ (validateCommand stem []).warnings := by
  have h1 : (checkFileNaming stem).errors = [] := by
    simp only [checkFileNaming]
    rw [if_pos h]
  have herr : (validateCommand stem []).errors =
      (checkFileNaming stem).errors ++ [CmdMsg.fileEmpty, CmdMsg.missingArguments,
        CmdMsg.missingTask, CmdMsg.missingProcess, CmdMsg.noHeadings] := by
    rw [validateCommand_errors]
    rfl
  have hw : (validateCommand stem []).warnings =
      (checkFileNaming stem).warnings ++ [CmdMsg.noBestPractices, CmdMsg.noAdaptation] := by
    rw [validateCommand_warnings]
    rfl
  refine ⟨?_, ?_, ?_, ?_⟩
  · rw [herr, h1]
    rfl
  · rw [herr, h1]
    decide
  · rw [hw]
    simp
  · rw [hw]
    simp

/-- C9 (witness): the amended statement at the concrete stem `my-command`. -/
theorem C9_witness :
    validatorKebabOk ("my-command".toList) = true
    ∧ (validateCommand ("my-command".toList) []).errors =
        [CmdMsg.fileEmpty, CmdMsg.missingArguments, CmdMsg.missingTask,
         CmdMsg.missingProcess, CmdMsg.noHeadings] :=
  ⟨by decide, (C9_amended ("my-command".toList) (by decide)).1⟩

/-! ## Template filling (TemplateEngine)

Both creators fill a fixed template text with `str.format (**vars)`:
`create_command.py` line 471 (`COMMAND_TEMPLATES [category]`) and
`create_skogix_agent.py` line 109 (`AGENT_TEMPLATE`).  All the repository's
template bodies consist of plain text and simple `{name}` placeholders. -/

/-- Result of one `str.format` call over a template. -/
inductive FmtResult where
  | ok (out : List Char)
  | missingField (name : List Char)
  | malformed
deriving DecidableEq

/-- Prepend a literal character to a successful format result. -/
def consF (c : Char) : FmtResult → FmtResult
  | .ok out => .ok (c :: out)
  | e => e

/-- Prepend a substituted value to a successful format result. -/
def valF (v : List Char) : FmtResult → FmtResult
  | .ok out => .ok (v ++ out)
  | e => e

/-- Split off a `{name}` placeholder after an opening brace: the text before
the first `}` is the field name and the remainder follows it; `none` when no
`}` remains (an unterminated placeholder, a `ValueError` in Python).  The
head of a non-empty `dropWhile (· != '}')` result is necessarily `}`. -/
def splitPlaceholder (rest : List Char) : Option (List Char × List Char) :=
  match rest.dropWhile (fun c => c != '}') with
  | [] => none
  | _ :: rest2 => some (rest.takeWhile (fun c => c != '}'), rest2)

/-- Keyword-argument lookup of `format (**vars)`. -/
def lookupVar (name : List Char) : List (List Char × List Char) → Option (List Char)
  | [] => none
  | (k, v) :: rest => if k = name then some v else lookupVar name rest

/-- Python `str.format` with simple named placeholders, `{{`/`}}` escapes
and keyword arguments: a placeholder whose name is missing from the mapping
raises `KeyError` (`missingField`) and nothing is produced — there is no
partial fill.  The fuel argument makes the recursion structural; every
recursive call consumes at least one character, so fuel equal to the
template length never runs out. -/
def pyFormatF (vars : List (List Char × List Char)) : Nat → List Char → FmtResult
  | 0, _ => .ok []
  | _, [] => .ok []
  | fuel + 1, c :: rest =>
    if c = '{' then
      if rest.head? = some '{' then consF '{' (pyFormatF vars fuel rest.tail)
      else
        match splitPlaceholder rest with
        | some (nm, rest2) =>
          match lookupVar nm vars with
          | some v => valF v (pyFormatF vars fuel rest2)
          | none => .missingField nm
        | none => .malformed
    else if c = '}' then
      if rest.head? = some '}' then consF '}' (pyFormatF vars fuel rest.tail)
      else .malformed
    else consF c (pyFormatF vars fuel rest)

/-- Template fill: `tpl.format (**vars)`. -/
def pyFormat (vars : List (List Char × List Char)) (tpl : List Char) : FmtResult :=
  pyFormatF vars tpl.length tpl

/-- The placeholder names referenced by a template body, in order. -/
def placeholdersOfF : Nat → List Char → List (List Char)
  | 0, _ => []
  | _, [] => []
  | fuel + 1, c :: rest =>
    if c = '{' then
      if rest.head? = some '{' then placeholdersOfF fuel rest.tail
      else
        match splitPlaceholder rest with
        | some (nm, rest2) => nm :: placeholdersOfF fuel rest2
        | none => []
    else if c = '}' then
      if rest.head? = some '}' then placeholdersOfF fuel rest.tail
      else []
    else placeholdersOfF fuel rest

/-- The placeholder names referenced by a template body. -/
def placeholdersOf (tpl : List Char) : List (List Char) :=
  placeholdersOfF tpl.length tpl

/-- A simple template: every `{` opens a brace-free field name terminated by
`}`, and no stray `}` or `{{`/`}}` escape occurs — the shape of all the
repository's templates. -/
def tplSimpleF : Nat → List Char → Bool
  | 0, _ => true
  | _, [] => true
  | fuel + 1, c :: rest =>
    if c = '{' then
      match splitPlaceholder rest with
      | some (nm, rest2) => nm.all (fun x => x != '{') && tplSimpleF fuel rest2
      | none => false
    else if c = '}' then false
    else tplSimpleF fuel rest

/-- Simplicity of a whole template body. -/
def tplSimple (tpl : List Char) : Bool := tplSimpleF tpl.length tpl

/-- No brace character occurs in the text (no unresolved placeholder marker
can be formed). -/
def braceFree (s : List Char) : Bool := s.all (fun c => c != '{' && c != '}')

/-! ### Template-fill lemmas (C8) -/

theorem splitPlaceholder_name (rest nm rest2 : List Char)
    (h : splitPlaceholder rest = some (nm, rest2)) :
    nm = rest.takeWhile (fun c => c != '}') := by
  unfold splitPlaceholder at h
  split at h
  · simp at h
  · rw [Option.some.injEq, Prod.mk.injEq] at h
    exact h.1.symm

theorem splitPlaceholder_len (rest nm rest2 : List Char)
    (h : splitPlaceholder rest = some (nm, rest2)) : rest2.length < rest.length := by
  unfold splitPlaceholder at h
  split at h
  · simp at h
  · rename_i x rest2' heq
    rw [Option.some.injEq, Prod.mk.injEq] at h
    have hd := (List.dropWhile_sublist (l := rest) (fun c => c != '}')).length_le
    rw [heq] at hd
    rw [List.length_cons] at hd
    have h2 := h.2
    subst h2
    omega

theorem lookupVar_mem (name v : List Char) : ∀ (l : List (List Char × List Char)),
    lookupVar name l = some v → (name, v) ∈ l := by
  intro l
  induction l with
  | nil => intro h; simp [lookupVar] at h
  | cons kv rest ih =>
    intro h
    rcases kv with ⟨k, w⟩
    rw [lookupVar] at h
    by_cases hk : k = name
    · rw [if_pos hk] at h
      injection h with hv
      subst hk
      subst hv
      exact List.mem_cons.mpr (Or.inl rfl)
    · rw [if_neg hk] at h
      exact List.mem_cons.mpr (Or.inr (ih h))

theorem pyFormat_main : ∀ (fuel : Nat) (tpl : List Char)
    (vars : List (List Char × List Char)), tpl.length ≤ fuel →
    tplSimpleF fuel tpl = true →
    ((∃ p, p ∈ placeholdersOfF fuel tpl ∧ lookupVar p vars = none) →
      ∃ q, pyFormatF vars fuel tpl = .missingField q
        ∧ q ∈ placeholdersOfF fuel tpl ∧ lookupVar q vars = none)
    ∧ ((∀ p ∈ placeholdersOfF fuel tpl, (lookupVar p vars).isSome = true) →
      ∃ out, pyFormatF vars fuel tpl = .ok out ∧
        ((∀ pr ∈ vars, braceFree pr.2 = true) → braceFree out = true)) := by
  intro fuel
  induction fuel with
  | zero =>
    intro tpl vars hlen _
    have htpl : tpl = [] := List.length_eq_zero.mp (Nat.le_zero.mp hlen)
    subst htpl
    constructor
    · rintro ⟨p, hp, _⟩
      simp [placeholdersOfF] at hp
    · intro _
      exact ⟨[], rfl, fun _ => rfl⟩
  | succ fuel ih =>
    intro tpl vars hlen hsimp
    cases tpl with
    | nil =>
      constructor
      · rintro ⟨p, hp, _⟩
        simp [placeholdersOfF] at hp
      · intro _
        exact ⟨[], rfl, fun _ => rfl⟩
    | cons c rest =>
      rw [List.length_cons] at hlen
      have hlr : rest.length ≤ fuel := by omega
      by_cases hc : c = '{'
      · subst hc
        replace hsimp : (match splitPlaceholder rest with
            | some (nm, rest2) => nm.all (fun x => x != '{') && tplSimpleF fuel rest2
            | none => false) = true := hsimp
        cases hsp : splitPlaceholder rest with
        | none =>
          rw [hsp] at hsimp
          simp at hsimp
        | some pr =>
          rcases pr with ⟨nm, rest2⟩
          rw [hsp] at hsimp
          replace hsimp : (nm.all (fun x => x != '{') && tplSimpleF fuel rest2) = true := hsimp
          rw [Bool.and_eq_true] at hsimp
          obtain ⟨hnm, hs2⟩ := hsimp
          have hhead : ¬ (rest.head? = some '{') := by
            intro hx
            cases rest with
            | nil => simp at hx
            | cons r0 t =>
              simp [List.head?] at hx
              subst hx
              have hname := splitPlaceholder_name _ _ _ hsp
              rw [List.takeWhile_cons] at hname
              rw [if_pos (by decide)] at hname
              rw [hname] at hnm
              simp [List.all_cons] at hnm
          have hlen2 : rest2.length ≤ fuel := by
            have := splitPlaceholder_len rest nm rest2 hsp
            omega
          have IH := ih rest2 vars hlen2 hs2
          have hph : placeholdersOfF (fuel + 1) ('{' :: rest) =
              nm :: placeholdersOfF fuel rest2 := by
            simp [placeholdersOfF, hhead, hsp]
          cases hlk : lookupVar nm vars with
          | none =>
            have hfmt : pyFormatF vars (fuel + 1) ('{' :: rest) = .missingField nm := by
              simp [pyFormatF, hhead, hsp, hlk]
            constructor
            · intro _
              exact ⟨nm, hfmt, by rw [hph]; exact List.mem_cons.mpr (Or.inl rfl), hlk⟩
            · intro hall
              have := hall nm (by rw [hph]; exact List.mem_cons.mpr (Or.inl rfl))
              rw [hlk] at this
              simp at this
          | some v =>
            have hfmt : pyFormatF vars (fuel + 1) ('{' :: rest) =
                valF v (pyFormatF vars fuel rest2) := by
              simp [pyFormatF, hhead, hsp, hlk]
            constructor
            · rintro ⟨p, hp, hpl⟩
              rw [hph] at hp
              rcases List.mem_cons.mp hp with rfl | hp2
              · rw [hlk] at hpl
                simp at hpl
              · obtain ⟨q, hq1, hq2, hq3⟩ := IH.1 ⟨p, hp2, hpl⟩
                refine ⟨q, ?_, ?_, hq3⟩
                · rw [hfmt, hq1]
                  rfl
                · rw [hph]
                  exact List.mem_cons.mpr (Or.inr hq2)
            · intro hall
              obtain ⟨out, hok, hbr⟩ := IH.2
                (fun p hp => hall p (by rw [hph]; exact List.mem_cons.mpr (Or.inr hp)))
              refine ⟨v ++ out, ?_, ?_⟩
              · rw [hfmt, hok]
                rfl
              · intro hvals
                have hv : braceFree v = true := hvals (nm, v) (lookupVar_mem nm v vars hlk)
                have ho := hbr hvals
                rw [braceFree, List.all_append]
                rw [braceFree] at hv ho
                simp [hv, ho]
      · by_cases hcr : c = '}'
        · subst hcr
          exfalso
          simp [tplSimpleF] at hsimp
        · replace hsimp : tplSimpleF fuel rest = true := by
            simpa [tplSimpleF, hc, hcr] using hsimp
          have hph : placeholdersOfF (fuel + 1) (c :: rest) = placeholdersOfF fuel rest := by
            simp [placeholdersOfF, hc, hcr]
          have hfmt : pyFormatF vars (fuel + 1) (c :: rest) =
              consF c (pyFormatF vars fuel rest) := by
            simp [pyFormatF, hc, hcr]
          have IH := ih rest vars hlr hsimp
          constructor
          · rintro ⟨p, hp, hpl⟩
            rw [hph] at hp
            obtain ⟨q, hq1, hq2, hq3⟩ := IH.1 ⟨p, hp, hpl⟩
            refine ⟨q, ?_, ?_, hq3⟩
            · rw [hfmt, hq1]
              rfl
            · rw [hph]
              exact hq2
          · intro hall
            obtain ⟨out, hok, hbr⟩ := IH.2 (fun p hp => hall p (by rw [hph]; exact hp))
            refine ⟨c :: out, ?_, ?_⟩
            · rw [hfmt, hok]
              rfl
            · intro hvals
              have ho := hbr hvals
              rw [braceFree, List.all_cons]
              rw [braceFree] at ho
              simp [ho, hc, hcr]

/-- C8: template fill is a pure function; over any simple template (the
shape of every template in the repository), whenever some placeholder of the
body has no entry in the supplied mapping the fill fails with
`MissingField` naming such a placeholder — producing no partial output — and
when every placeholder is supplied it succeeds, and (for brace-free values)
the output text contains no brace at all, hence no unresolved placeholder
marker. -/
theorem C8_thm (tpl : List Char) (vars : List (List Char × List Char))
    (hsimple : tplSimple tpl = true) :
    ((∃ p, p ∈ placeholdersOf tpl ∧ lookupVar p vars = none) →
      ∃ q, pyFormat vars tpl = .missingField q
        ∧ q ∈ placeholdersOf tpl ∧ lookupVar q vars = none)
    ∧ ((∀ p ∈ placeholdersOf tpl, (lookupVar p vars).isSome = true) →
      ∃ out, pyFormat vars tpl = .ok out ∧
        ((∀ pr ∈ vars, braceFree pr.2 = true) → braceFree out = true)) :=
  pyFormat_main tpl.length tpl vars le_rfl hsimple

/-- C8 (witness): filling `x {title} y` without `title` fails with
`MissingField`; supplying it succeeds with brace-free output. -/
theorem C8_witness :
    tplSimple ("x {title} y".toList) = true
    ∧ (∃ q, pyFormat [] ("x {title} y".toList) = FmtResult.missingField q
        ∧ q ∈ placeholdersOf ("x {title} y".toList) ∧ lookupVar q [] = none)
    ∧ (∃ out, pyFormat [("title".toList, "T".toList)] ("x {title} y".toList) =
          FmtResult.ok out
        ∧ ((∀ pr ∈ [("title".toList, "T".toList)], braceFree pr.2 = true) →
            braceFree out = true)) :=
  ⟨by decide,
   (C8_thm ("x {title} y".toList) [] (by decide)).1 ⟨"title".toList, by decide, rfl⟩,
   (C8_thm ("x {title} y".toList) [("title".toList, "T".toList)] (by decide)).2
     (by decide)⟩

end SkogaiSkills
